import Mathlib

/-!
Verification of the partitioned-object decoding discipline of the
`openapiv3` path module (`src/paths.rs`).

The development shallowly embeds the data model: a generic ordered JSON-like
value tree, the `PathItem` (Operation-Set Record) and `Paths`
(Path-Collection Record) structures, the `ReferenceOr` (Reference-or-Inline)
wrapper, the canonical-order iterators `iter` / `iter_mut` / `into_iter`,
and the decode/encode pipeline.  Code of the crate that is not part of
`src/paths.rs` (the `crate::util` helpers, `ReferenceOr`, the opaque payload
types and the serde-derived field handling) is modelled from the
specification, as marked in the individual doc comments.
-/

set_option maxHeartbeats 1000000

/-- A generic ordered JSON/YAML-like value tree: the universal
input/output substrate of the decoder.  Objects are ordered lists of
key/value pairs with (by assumption) unique keys. -/
inductive Json where
  | null : Json
  | bool : Bool → Json
  | num : Int → Json
  | str : String → Json
  | arr : List Json → Json
  | obj : List (String × Json) → Json

/-- Errors of the decoding discipline: a fixed field whose payload has the
wrong shape (`TypeMismatch`, carrying the offending key and the expected
kind) and a reference-or-inline value that is neither a valid reference
object nor a decodable inline payload (`PayloadMismatch`). -/
inductive DecodeError where
  | TypeMismatch : String → String → DecodeError
  | PayloadMismatch : DecodeError
deriving DecidableEq, Repr

/-- First-match lookup of a key in an ordered field list, by exact string
equality (the access discipline of the underlying ordered map). -/
def lookupKey (k : String) : List (String × α) → Option α
  | [] => none
  | (k', v) :: rest => if k' = k then some v else lookupKey k rest

/-- Whether an `Except` computation succeeded. -/
def isOkE : Except DecodeError α → Bool
  | .ok _ => true
  | .error _ => false

/-- Effectful map over a list in the `Except` monad, written out explicitly:
fails on the first failing element, otherwise returns the list of results in
order. -/
def exMapM (f : α → Except DecodeError β) : List α → Except DecodeError (List β)
  | [] => .ok []
  | x :: xs => (f x).bind fun y => (exMapM f xs).map fun ys => y :: ys

/-- Modelled from the spec: `Operation` is an opaque payload type external
to the core; it only exposes its own decode/encode pair.  It is modelled as
carrying its raw object tree. -/
structure Operation where
  value : Json

/-- Modelled from the spec: decoding an opaque `Operation` payload accepts
an object tree and keeps it opaque; any non-object shape fails. -/
def Operation.decode : Json → Except DecodeError Operation
  | .obj fs => .ok ⟨.obj fs⟩
  | _ => .error .PayloadMismatch

/-- Modelled from the spec: encoding an opaque `Operation` emits its raw
tree unchanged. -/
def Operation.encode (op : Operation) : Json := op.value

/-- Modelled from the spec: `Server` is an opaque payload type, modelled as
carrying its raw object tree. -/
structure Server where
  value : Json

/-- Modelled from the spec: opaque `Server` decode. -/
def Server.decode : Json → Except DecodeError Server
  | .obj fs => .ok ⟨.obj fs⟩
  | _ => .error .PayloadMismatch

/-- Modelled from the spec: opaque `Server` encode. -/
def Server.encode (s : Server) : Json := s.value

/-- Modelled from the spec: `Parameter` is an opaque payload type, modelled
as carrying its raw object tree. -/
structure Parameter where
  value : Json

/-- Modelled from the spec: opaque `Parameter` decode. -/
def Parameter.decode : Json → Except DecodeError Parameter
  | .obj fs => .ok ⟨.obj fs⟩
  | _ => .error .PayloadMismatch

/-- Modelled from the spec: opaque `Parameter` encode. -/
def Parameter.encode (p : Parameter) : Json := p.value

/-- Modelled from the spec: the Reference-or-Inline node, a tagged union of
an indirection (`Reference`, owning the target locator string) and an
inline payload (`Inline`).  The type itself lives outside `src/paths.rs`. -/
inductive ReferenceOr (T : Type) where
  | Reference : String → ReferenceOr T
  | Inline : T → ReferenceOr T

/-- Modelled from the spec: Reference-or-Inline decoding.  A value is a
`Reference` iff it is an object whose key set is exactly the singleton
reserved locator field `$ref` (whose value must be a string); any other
object shape is decoded as `Inline` via the payload type's own decoder;
non-objects fail with `PayloadMismatch`. -/
def ReferenceOr.decode (decT : Json → Except DecodeError T) (j : Json) :
    Except DecodeError (ReferenceOr T) :=
  match j with
  | .obj fields =>
    match fields with
    | [(k, v)] =>
      if k = "$ref" then
        match v with
        | .str s => .ok (.Reference s)
        | _ => .error .PayloadMismatch
      else (decT (.obj [(k, v)])).map .Inline
    | _ => (decT (.obj fields)).map .Inline
  | _ => .error .PayloadMismatch

/-- Modelled from the spec: Reference-or-Inline encoding. The `Reference`
variant encodes to a singleton object holding the locator; `Inline`
delegates to the payload encoder. -/
def ReferenceOr.encode (encT : T → Json) : ReferenceOr T → Json
  | .Reference s => .obj [("$ref", .str s)]
  | .Inline t => encT t

/-- Models Rust's `key.starts_with('/')`: whether the first character of
the string is the path separator. -/
def startsWithSlash (s : String) : Bool :=
  match s.data with
  | [] => false
  | c :: _ => c = '/'

/-- The Operation-Set Record of `src/paths.rs` (`PathItem`): the optional
`summary` / `description` strings, one optional `Operation` slot per
supported verb, the `servers` and `parameters` lists, and the flattened
extension entries. -/
structure PathItem where
  summary : Option String
  description : Option String
  get : Option Operation
  put : Option Operation
  post : Option Operation
  delete : Option Operation
  options : Option Operation
  head : Option Operation
  patch : Option Operation
  trace : Option Operation
  servers : List Server
  parameters : List (ReferenceOr Parameter)
  extensions : List (String × Json)

/-- The source function `PathItem::iter` (src/paths.rs lines 65-78): the shared-reference
traversal, yielding one `(verb-name, Operation)` pair per populated verb
slot in the fixed order of the source vector. -/
def PathItem.iter (p : PathItem) : List (String × Operation) :=
  [("get", p.get), ("put", p.put), ("post", p.post), ("delete", p.delete),
   ("options", p.options), ("head", p.head), ("patch", p.patch), ("trace", p.trace)].filterMap
    fun m => m.2.map fun op => (m.1, op)

/-- The source function `PathItem::iter_mut` (src/paths.rs lines 81-94): the mutable-reference
traversal; modelled by the sequence of `(verb-name, referenced value)`
pairs it yields. -/
def PathItem.iterMut (p : PathItem) : List (String × Operation) :=
  [("get", p.get), ("put", p.put), ("post", p.post), ("delete", p.delete),
   ("options", p.options), ("head", p.head), ("patch", p.patch), ("trace", p.trace)].filterMap
    fun m => m.2.map fun op => (m.1, op)

/-- The source impl `IntoIterator for PathItem` (src/paths.rs lines 97-119): the consuming
traversal; the source collects the filtered vector and iterates it, which
yields the same sequence of pairs. -/
def PathItem.intoIter (p : PathItem) : List (String × Operation) :=
  [("get", p.get), ("put", p.put), ("post", p.post), ("delete", p.delete),
   ("options", p.options), ("head", p.head), ("patch", p.patch), ("trace", p.trace)].filterMap
    fun m => m.2.map fun op => (m.1, op)

/-- The canonical verb order fixed by the `PathItem` type. -/
def verbNames : List String :=
  ["get", "put", "post", "delete", "options", "head", "patch", "trace"]

/-- By-name access to a verb slot of a `PathItem`. -/
def PathItem.verbGet (p : PathItem) : String → Option Operation
  | "get" => p.get
  | "put" => p.put
  | "post" => p.post
  | "delete" => p.delete
  | "options" => p.options
  | "head" => p.head
  | "patch" => p.patch
  | "trace" => p.trace
  | _ => none

/-- Models the net effect of an arbitrary sequence of writes through the
mutable references yielded by `iter_mut`: each populated verb slot ends at
a value determined by that verb and its previous content; absent slots are
unreachable through the iterator. -/
def PathItem.applyIterMut (f : String → Operation → Operation) (p : PathItem) : PathItem :=
  { p with
    get := p.get.map (f "get"), put := p.put.map (f "put"), post := p.post.map (f "post"),
    delete := p.delete.map (f "delete"), options := p.options.map (f "options"),
    head := p.head.map (f "head"), patch := p.patch.map (f "patch"),
    trace := p.trace.map (f "trace") }

/-- The closed fixed-field set of the Operation-Set Record, in the
declaration order of `PathItem`. -/
def pathItemFixedNames : List String :=
  ["summary", "description", "get", "put", "post", "delete", "options", "head",
   "patch", "trace", "servers", "parameters"]

/-- Modelled from the spec: `crate::util::deserialize_extensions` is not
part of `src/paths.rs`; per the spec every key not claimed by the fixed
field set (and not matched by the dynamic predicate, which is empty for
`PathItem`) is retained opaquely, in source order. -/
def pathItemExt (fields : List (String × Json)) : List (String × Json) :=
  fields.filter fun e => !(pathItemFixedNames.contains e.1)

/-- Decoding of an optional string fixed field: a missing key or an
explicit null is absence, a string is presence, anything else is a
`TypeMismatch` on that key. -/
def decodeOptStrField (k : String) (fields : List (String × Json)) :
    Except DecodeError (Option String) :=
  match lookupKey k fields with
  | none => .ok none
  | some .null => .ok none
  | some (.str s) => .ok (some s)
  | some _ => .error (.TypeMismatch k "string")

/-- Decoding of an optional verb fixed field: a missing key or an explicit
null is absence; otherwise the opaque `Operation` decoder runs. -/
def decodeOpField (k : String) (fields : List (String × Json)) :
    Except DecodeError (Option Operation) :=
  match lookupKey k fields with
  | none => .ok none
  | some .null => .ok none
  | some v => (Operation.decode v).map some

/-- Decoding of the `servers` list: a missing key defaults to the empty
list; a present key must hold an array of decodable `Server` payloads. -/
def decodeServersField (fields : List (String × Json)) :
    Except DecodeError (List Server) :=
  match lookupKey "servers" fields with
  | none => .ok []
  | some (.arr xs) => exMapM Server.decode xs
  | some _ => .error (.TypeMismatch "servers" "array")

/-- Decoding of the `parameters` list: a missing key defaults to the empty
list; a present key must hold an array of Reference-or-Inline `Parameter`
values. -/
def decodeParamsField (fields : List (String × Json)) :
    Except DecodeError (List (ReferenceOr Parameter)) :=
  match lookupKey "parameters" fields with
  | none => .ok []
  | some (.arr xs) => exMapM (ReferenceOr.decode Parameter.decode) xs
  | some _ => .error (.TypeMismatch "parameters" "array")

/-- Modelled from the spec: decoding of the Operation-Set Record over an
ordered field list, per the partitioned-object discipline: each fixed
field's payload decodes against its declared type (a failure is fatal to
the whole object), every unrecognized key is routed to the extension
bucket in source order. -/
def PathItem.decode (fields : List (String × Json)) : Except DecodeError PathItem :=
  (decodeOptStrField "summary" fields).bind fun summ =>
  (decodeOptStrField "description" fields).bind fun desc =>
  (decodeOpField "get" fields).bind fun g =>
  (decodeOpField "put" fields).bind fun pu =>
  (decodeOpField "post" fields).bind fun po =>
  (decodeOpField "delete" fields).bind fun de =>
  (decodeOpField "options" fields).bind fun op =>
  (decodeOpField "head" fields).bind fun he =>
  (decodeOpField "patch" fields).bind fun pa =>
  (decodeOpField "trace" fields).bind fun tr =>
  (decodeServersField fields).bind fun sv =>
  (decodeParamsField fields).map fun pr =>
    { summary := summ, description := desc, get := g, put := pu, post := po,
      delete := de, options := op, head := he, patch := pa, trace := tr,
      servers := sv, parameters := pr, extensions := pathItemExt fields }

/-- Decoding of a `PathItem` from a generic value: the record decoder on an
object, failure on any other shape. -/
def PathItem.decodeJson : Json → Except DecodeError PathItem
  | .obj fields => PathItem.decode fields
  | _ => .error .PayloadMismatch

/-- An optional encoded entry: nothing for an absent field, a single
key/value pair for a present one. -/
def optEntry (k : String) (o : Option Json) : List (String × Json) :=
  match o with
  | none => []
  | some v => [(k, v)]

/-- An encoded list-valued entry: omitted entirely when the list is empty
(`skip_serializing_if = "Vec::is_empty"`). -/
def listEntry (k : String) (l : List Json) : List (String × Json) :=
  if l.isEmpty then [] else [(k, Json.arr l)]

/-- Modelled from the spec and the serde attributes of `src/paths.rs`:
encoding of the Operation-Set Record writes the present fixed fields in
declaration order, omitting absent optional fields entirely
(`skip_serializing_if = "Option::is_none"`) and empty lists entirely
(`skip_serializing_if = "Vec::is_empty"`), followed by the extension
entries in their stored order. -/
def PathItem.encode (p : PathItem) : List (String × Json) :=
  optEntry "summary" (p.summary.map Json.str) ++
  optEntry "description" (p.description.map Json.str) ++
  optEntry "get" (p.get.map Operation.encode) ++
  optEntry "put" (p.put.map Operation.encode) ++
  optEntry "post" (p.post.map Operation.encode) ++
  optEntry "delete" (p.delete.map Operation.encode) ++
  optEntry "options" (p.options.map Operation.encode) ++
  optEntry "head" (p.head.map Operation.encode) ++
  optEntry "patch" (p.patch.map Operation.encode) ++
  optEntry "trace" (p.trace.map Operation.encode) ++
  listEntry "servers" (p.servers.map Server.encode) ++
  listEntry "parameters" (p.parameters.map (ReferenceOr.encode Parameter.encode)) ++
  p.extensions

/-- Encoding of a `PathItem` back to a generic object value. -/
def PathItem.encodeJson (p : PathItem) : Json :=
  .obj p.encode

/-- Which fixed fields of a `PathItem` are logically absent (an empty
option, or an empty list for `servers` / `parameters`). -/
def PathItem.fieldAbsent (p : PathItem) : String → Bool
  | "summary" => p.summary.isNone
  | "description" => p.description.isNone
  | "get" => p.get.isNone
  | "put" => p.put.isNone
  | "post" => p.post.isNone
  | "delete" => p.delete.isNone
  | "options" => p.options.isNone
  | "head" => p.head.isNone
  | "patch" => p.patch.isNone
  | "trace" => p.trace.isNone
  | "servers" => p.servers.isEmpty
  | "parameters" => p.parameters.isEmpty
  | _ => false

/-- Modelled from the spec and `deserialize_paths` (src/paths.rs lines
152-162): the dynamic sub-map of the Path-Collection Record collects, in
source order, exactly the keys matched by the predicate "key starts with
the path separator", decoding each value as Reference-or-Inline
`PathItem`; the `PredicateVisitor` itself lives in `crate::util` and is
modelled from the spec. -/
def deserializePaths : List (String × Json) →
    Except DecodeError (List (String × ReferenceOr PathItem))
  | [] => .ok []
  | (k, v) :: rest =>
    if startsWithSlash k then
      (ReferenceOr.decode PathItem.decodeJson v).bind fun r =>
      (deserializePaths rest).map fun ps => (k, r) :: ps
    else deserializePaths rest

/-- The Path-Collection Record of `src/paths.rs` (`Paths`): the ordered
dynamic sub-map of path templates and the flattened extension entries. -/
structure Paths where
  paths : List (String × ReferenceOr PathItem)
  extensions : List (String × Json)

/-- Modelled from the spec: decoding of the Path-Collection Record routes
the predicate-matched keys through `deserializePaths` and retains every
other key opaquely, in source order, as an extension entry
(`crate::util::deserialize_extensions`, modelled from the spec). -/
def Paths.decode (fields : List (String × Json)) : Except DecodeError Paths :=
  (deserializePaths fields).map fun ps =>
    { paths := ps, extensions := fields.filter fun e => !startsWithSlash e.1 }

/-- The source function `Paths::iter` (src/paths.rs lines 137-139): iteration over the path
entries; the underlying ordered map iterates in insertion order. -/
def Paths.iter (q : Paths) : List (String × ReferenceOr PathItem) :=
  q.paths

/-- The source impl `IntoIterator for Paths` (src/paths.rs lines 142-150): the consuming
iteration over the path entries, also in insertion order. -/
def Paths.intoIter (q : Paths) : List (String × ReferenceOr PathItem) :=
  q.paths

/-- Modelled from the spec: lookup of a path entry by exact path-template
string (the `get` of the underlying ordered map). -/
def Paths.get (q : Paths) (k : String) : Option (ReferenceOr PathItem) :=
  lookupKey k q.paths

/-- Modelled from the spec: encoding of the Path-Collection Record writes
the path entries in their stored order, each value through the
Reference-or-Inline encoder, then the extension entries in their stored
order. -/
def Paths.encode (q : Paths) : List (String × Json) :=
  (q.paths.map fun e => (e.1, ReferenceOr.encode PathItem.encodeJson e.2)) ++ q.extensions

/-- One reassembled entry per fixed field name, in canonical order, each
carrying the source value looked up at that name. -/
def blocksOf (names : List String) (fields : List (String × Json)) : List (String × Json) :=
  match names with
  | [] => []
  | n :: ns => optEntry n (lookupKey n fields) ++ blocksOf ns fields

/-- The bucket-grouped reassembly of a source object under the
Operation-Set fixed-field set: the present fixed fields in canonical order
with their source values, followed by the extension entries in source
order. -/
def pathItemReassembled (fields : List (String × Json)) : List (String × Json) :=
  blocksOf pathItemFixedNames fields ++ pathItemExt fields

/-- Whether a value is a string leaf. -/
def isStrB : Json → Bool
  | .str _ => true
  | _ => false

/-- Whether a value is an object. -/
def isObjB : Json → Bool
  | .obj _ => true
  | _ => false

/-- Whether a value is a non-empty array all of whose elements satisfy a
shape check. -/
def nonEmptyArrAll (p : Json → Bool) : Json → Bool
  | .arr xs => !xs.isEmpty && xs.all p
  | _ => false

/-- Normal form of a `parameters` element: an object, and when its key set
is exactly the reserved locator singleton its locator value is a string. -/
def paramElemNF : Json → Bool
  | .obj [(k', v')] => if k' = "$ref" then isStrB v' else true
  | .obj _ => true
  | _ => false

/-- Normal-form check for a fixed-field value of the Operation-Set Record:
the shapes whose decode succeeds and re-encodes to the identical value
(strings for the descriptive fields, objects for the verbs, non-empty
arrays of suitable elements for the list fields). -/
def presentFixedValue (k : String) (v : Json) : Bool :=
  if k = "summary" ∨ k = "description" then isStrB v
  else if verbNames.contains k then isObjB v
  else if k = "servers" then nonEmptyArrAll isObjB v
  else if k = "parameters" then nonEmptyArrAll paramElemNF v
  else true

/-- Normal-form check for an Operation-Set source object: every entry
sitting at a fixed field name carries a present-form value. -/
def pathItemNF (fields : List (String × Json)) : Bool :=
  fields.all fun e => presentFixedValue e.1 e.2

/-- A Reference-or-Inline `PathItem` value that decodes successfully and
re-encodes to the identical value. -/
def RefOrPathRT (v : Json) : Prop :=
  ∃ r, ReferenceOr.decode PathItem.decodeJson v = .ok r ∧
    ReferenceOr.encode PathItem.encodeJson r = v

/-- Success of the fixed optional-string payload, as a shape check. -/
def optStrOkB : Option Json → Bool
  | none => true
  | some .null => true
  | some (.str _) => true
  | some _ => false

/-- Success of the fixed verb payload, as a shape check. -/
def optOpOkB : Option Json → Bool
  | none => true
  | some .null => true
  | some (.obj _) => true
  | some _ => false

/-- Success of the `servers` payload, as a shape check. -/
def serversOkB : Option Json → Bool
  | none => true
  | some (.arr xs) => xs.all isObjB
  | some _ => false

/-- Success of the `parameters` payload, as a shape check on each
Reference-or-Inline element. -/
def paramsOkB : Option Json → Bool
  | none => true
  | some (.arr xs) => xs.all fun x => isOkE (ReferenceOr.decode Parameter.decode x)
  | some _ => false

/-- Decodability of every fixed-field payload of an Operation-Set source
object, reading only the values sitting at the fixed field names. -/
def pathItemFixedOk (fields : List (String × Json)) : Bool :=
  optStrOkB (lookupKey "summary" fields) && optStrOkB (lookupKey "description" fields) &&
  optOpOkB (lookupKey "get" fields) && optOpOkB (lookupKey "put" fields) &&
  optOpOkB (lookupKey "post" fields) && optOpOkB (lookupKey "delete" fields) &&
  optOpOkB (lookupKey "options" fields) && optOpOkB (lookupKey "head" fields) &&
  optOpOkB (lookupKey "patch" fields) && optOpOkB (lookupKey "trace" fields) &&
  serversOkB (lookupKey "servers" fields) && paramsOkB (lookupKey "parameters" fields)

/-- Example Operation-Set source object with verb keys in the order
post, get, delete. -/
def c1fieldsA : List (String × Json) :=
  [("post", Json.obj []), ("get", Json.obj []), ("delete", Json.obj [])]

/-- The same object with its first two keys transposed. -/
def c1fieldsB : List (String × Json) :=
  [("get", Json.obj []), ("post", Json.obj []), ("delete", Json.obj [])]

/-- The record both example objects decode to. -/
def c1item : PathItem :=
  { summary := none, description := none, get := some ⟨Json.obj []⟩, put := none,
    post := some ⟨Json.obj []⟩, delete := some ⟨Json.obj []⟩, options := none,
    head := none, patch := none, trace := none, servers := [], parameters := [],
    extensions := [] }

/-- A verb-free record carrying one extension entry. -/
def c6item : PathItem :=
  { summary := none, description := none, get := none, put := none, post := none,
    delete := none, options := none, head := none, patch := none, trace := none,
    servers := [], parameters := [], extensions := [("x-a", Json.num 1)] }

/-- Example object with no `servers` key of its own. -/
def c9fields : List (String × Json) :=
  [("summary", Json.str "s")]

/-- The record `c9fields` decodes to. -/
def c9item : PathItem :=
  { summary := some "s", description := none, get := none, put := none, post := none,
    delete := none, options := none, head := none, patch := none, trace := none,
    servers := [], parameters := [], extensions := [] }

/-- Example Path-Collection source object: one path template and one
extension key. -/
def c3fields : List (String × Json) :=
  [("/a", Json.obj [("$ref", Json.str "r")]), ("x-b", Json.num 2)]

/-- The record `c3fields` decodes to. -/
def c3paths : Paths :=
  { paths := [("/a", .Reference "r")], extensions := [("x-b", Json.num 2)] }

/-- Example Operation-Set source object mixing an extension key, a verb
key and a descriptive key. -/
def c2fieldsA : List (String × Json) :=
  [("x-a", Json.num 1), ("get", Json.obj []), ("summary", Json.str "s")]

/-- The record `c2fieldsA` decodes to. -/
def c2itemA : PathItem :=
  { summary := some "s", description := none, get := some ⟨Json.obj []⟩, put := none,
    post := none, delete := none, options := none, head := none, patch := none,
    trace := none, servers := [], parameters := [], extensions := [("x-a", Json.num 1)] }

/-- Example Path-Collection source object mixing a path key and an
extension key. -/
def c2fieldsB : List (String × Json) :=
  [("/p", Json.obj [("$ref", Json.str "r")]), ("y", Json.num 2)]

/-- The record `c2fieldsB` decodes to. -/
def c2pathsB : Paths :=
  { paths := [("/p", .Reference "r")], extensions := [("y", Json.num 2)] }

theorem okBindE (a : α) (f : α → Except DecodeError β) :
    (Except.ok a : Except DecodeError α).bind f = f a := rfl

theorem errBindE (e : DecodeError) (f : α → Except DecodeError β) :
    (Except.error e : Except DecodeError α).bind f = .error e := rfl

theorem okMapE (a : α) (f : α → β) :
    (Except.ok a : Except DecodeError α).map f = .ok (f a) := rfl

theorem errMapE (e : DecodeError) (f : α → β) :
    (Except.error e : Except DecodeError α).map f = .error e := rfl

theorem isOkE_map (x : Except DecodeError α) (f : α → β) : isOkE (x.map f) = isOkE x := by
  cases x <;> rfl

theorem isOkE_iff (x : Except DecodeError α) : isOkE x = true ↔ ∃ a, x = .ok a := by
  cases x <;> simp [isOkE]

theorem isOkE_bind (x : Except DecodeError α) (f : α → Except DecodeError β) :
    isOkE (x.bind f) = true ↔ ∃ a, x = .ok a ∧ isOkE (f a) = true := by
  cases x with
  | ok a => simp [okBindE]
  | error e => simp [errBindE, isOkE]

theorem lookupKey_cons (k k' : String) (v : α) (l : List (String × α)) :
    lookupKey k ((k', v) :: l) = if k' = k then some v else lookupKey k l := rfl

theorem lookupKey_cons_eq (k : String) (v : α) (l : List (String × α)) :
    lookupKey k ((k, v) :: l) = some v := by
  simp [lookupKey]

theorem lookupKey_cons_ne {k k' : String} (h : k' ≠ k) (v : α) (l : List (String × α)) :
    lookupKey k ((k', v) :: l) = lookupKey k l := by
  simp [lookupKey, h]

theorem lookupKey_append (k : String) (l1 l2 : List (String × α)) :
    lookupKey k (l1 ++ l2) =
      (match lookupKey k l1 with
       | some v => some v
       | none => lookupKey k l2) := by
  induction l1 with
  | nil => simp [lookupKey]
  | cons e l ih =>
    obtain ⟨k', v⟩ := e
    by_cases h : k' = k
    · subst h
      simp [lookupKey_cons_eq]
    · simp only [List.cons_append, lookupKey_cons_ne h, ih]

theorem lookupKey_mem {l : List (String × α)} {k : String} {v : α}
    (h : lookupKey k l = some v) : (k, v) ∈ l := by
  induction l with
  | nil => simp [lookupKey] at h
  | cons e l ih =>
    obtain ⟨k', v'⟩ := e
    by_cases hk : k' = k
    · subst hk
      rw [lookupKey_cons_eq] at h
      cases h
      exact List.mem_cons_self _ _
    · rw [lookupKey_cons_ne hk] at h
      exact List.mem_cons_of_mem _ (ih h)

theorem mem_lookupKey {l : List (String × α)} {k : String} {v : α}
    (hn : (l.map Prod.fst).Nodup) (h : (k, v) ∈ l) : lookupKey k l = some v := by
  induction l with
  | nil => cases h
  | cons e l ih =>
    obtain ⟨k', v'⟩ := e
    rcases List.mem_cons.mp h with h1 | h1
    · cases h1
      exact lookupKey_cons_eq _ _ _
    · have hk : k' ≠ k := by
        rintro rfl
        exact (List.nodup_cons.mp hn).1 (List.mem_map.mpr ⟨(k', v), h1, rfl⟩)
      rw [lookupKey_cons_ne hk]
      exact ih (List.nodup_cons.mp hn).2 h1

theorem lookupKey_filter_pos (P : String → Bool) {k : String} (hP : P k = true)
    (l : List (String × α)) :
    lookupKey k (l.filter fun e => P e.1) = lookupKey k l := by
  induction l with
  | nil => rfl
  | cons e l ih =>
    obtain ⟨k', v⟩ := e
    by_cases h : k' = k
    · subst h
      simp [List.filter_cons, hP, lookupKey_cons_eq]
    · cases hPk : P k' with
      | true => simp [List.filter_cons, hPk, lookupKey_cons_ne h, ih]
      | false => simp [List.filter_cons, hPk, lookupKey_cons_ne h, ih]

theorem lookupKey_filter_neg (P : String → Bool) {k : String} (hP : P k = false)
    (l : List (String × α)) :
    lookupKey k (l.filter fun e => P e.1) = none := by
  induction l with
  | nil => rfl
  | cons e l ih =>
    obtain ⟨k', v⟩ := e
    cases hPk : P k' with
    | true =>
      have h : k' ≠ k := by
        rintro rfl
        rw [hP] at hPk
        cases hPk
      simp [List.filter_cons, hPk, lookupKey_cons_ne h, ih]
    | false => simp [List.filter_cons, hPk, ih]

theorem lookupKey_partition (P : String → Bool) (l : List (String × α)) (k : String) :
    lookupKey k ((l.filter fun e => P e.1) ++ l.filter fun e => !P e.1) = lookupKey k l := by
  cases hP : P k with
  | true =>
    rw [lookupKey_append, lookupKey_filter_pos P hP]
    cases hl : lookupKey k l with
    | some v => rfl
    | none =>
      have := lookupKey_filter_neg (fun s => !P s) (k := k) (by simp [hP]) l
      simpa using this
  | false =>
    rw [lookupKey_append, lookupKey_filter_neg P hP]
    have := lookupKey_filter_pos (fun s => !P s) (k := k) (by simp [hP]) l
    simpa using this

theorem lookupKey_optEntry_ne {k k' : String} (h : k' ≠ k) (o : Option Json)
    (rest : List (String × Json)) :
    lookupKey k (optEntry k' o ++ rest) = lookupKey k rest := by
  cases o with
  | none => rfl
  | some v => simp [optEntry, lookupKey_cons_ne h]

theorem lookupKey_optEntry_eq (k : String) (o : Option Json) (rest : List (String × Json)) :
    lookupKey k (optEntry k o ++ rest) =
      (match o with
       | some v => some v
       | none => lookupKey k rest) := by
  cases o with
  | none => rfl
  | some v => simp [optEntry, lookupKey_cons_eq]

theorem mem_keys_optEntry (k k' : String) (o : Option Json) :
    k ∈ (optEntry k' o).map Prod.fst ↔ k = k' ∧ o.isSome = true := by
  cases o <;> simp [optEntry]

theorem lookupKey_blocksOf_not_mem {k : String} {names : List String}
    (h : k ∉ names) (fields tail : List (String × Json)) :
    lookupKey k (blocksOf names fields ++ tail) = lookupKey k tail := by
  induction names with
  | nil => simp [blocksOf]
  | cons n ns ih =>
    have hk : n ≠ k := by
      rintro rfl
      exact h (List.mem_cons_self _ _)
    rw [blocksOf, List.append_assoc, lookupKey_optEntry_ne hk]
    exact ih fun hm => h (List.mem_cons_of_mem _ hm)

theorem lookupKey_blocksOf_mem {k : String} {names : List String}
    (hn : names.Nodup) (hk : k ∈ names) (fields tail : List (String × Json))
    (htail : lookupKey k tail = none) :
    lookupKey k (blocksOf names fields ++ tail) = lookupKey k fields := by
  induction names with
  | nil => cases hk
  | cons n ns ih =>
    by_cases h : n = k
    · subst h
      rw [blocksOf, List.append_assoc, lookupKey_optEntry_eq]
      cases hl : lookupKey n fields with
      | some v => rfl
      | none =>
        have hnot : n ∉ ns := (List.nodup_cons.mp hn).1
        rw [lookupKey_blocksOf_not_mem hnot, htail]
    · rw [blocksOf, List.append_assoc, lookupKey_optEntry_ne h]
      exact ih (List.nodup_cons.mp hn).2 (List.mem_of_ne_of_mem (fun hq => h hq.symm) hk)

theorem pathItemFixedNames_nodup : pathItemFixedNames.Nodup := by decide

theorem lookupKey_reassembled (fields : List (String × Json)) (k : String) :
    lookupKey k (pathItemReassembled fields) = lookupKey k fields := by
  by_cases hk : k ∈ pathItemFixedNames
  · have htail : lookupKey k (pathItemExt fields) = none :=
      lookupKey_filter_neg (fun s => !pathItemFixedNames.contains s) (by simp [hk]) fields
    exact lookupKey_blocksOf_mem pathItemFixedNames_nodup hk fields (pathItemExt fields) htail
  · rw [pathItemReassembled, lookupKey_blocksOf_not_mem hk]
    exact lookupKey_filter_pos (fun s => !pathItemFixedNames.contains s) (by simp [hk]) fields

theorem lookupKey_perm {l1 l2 : List (String × α)}
    (hp : l1.Perm l2) (hn : (l1.map Prod.fst).Nodup) (k : String) :
    lookupKey k l1 = lookupKey k l2 := by
  induction hp with
  | nil => rfl
  | cons e hp ih =>
    obtain ⟨k', v⟩ := e
    by_cases h : k' = k
    · subst h
      rw [lookupKey_cons_eq, lookupKey_cons_eq]
    · rw [lookupKey_cons_ne h, lookupKey_cons_ne h]
      exact ih (List.nodup_cons.mp (by simpa using hn)).2
  | swap a b l =>
    obtain ⟨ka, va⟩ := a
    obtain ⟨kb, vb⟩ := b
    have hab : kb ≠ ka := by
      intro h
      subst h
      simp at hn
    by_cases h1 : ka = k
    · subst h1
      rw [lookupKey_cons_ne hab, lookupKey_cons_eq, lookupKey_cons_eq]
    · by_cases h2 : kb = k
      · subst h2
        rw [lookupKey_cons_eq, lookupKey_cons_ne h1, lookupKey_cons_eq]
      · rw [lookupKey_cons_ne h2, lookupKey_cons_ne h1, lookupKey_cons_ne h1,
          lookupKey_cons_ne h2]
  | trans hp1 hp2 ih1 ih2 =>
    refine (ih1 hn).trans (ih2 ?_)
    have := hp1.map Prod.fst
    exact this.nodup_iff.mp hn

theorem bind_ok_iff (x : Except DecodeError α) (f : α → Except DecodeError β) (b : β) :
    x.bind f = .ok b ↔ ∃ a, x = .ok a ∧ f a = .ok b := by
  cases x with
  | ok a => simp [okBindE]
  | error e => simp [errBindE]

theorem map_ok_iff (x : Except DecodeError α) (g : α → β) (b : β) :
    x.map g = .ok b ↔ ∃ a, x = .ok a ∧ g a = b := by
  cases x with
  | ok a => simp [okMapE]
  | error e => simp [errMapE]

theorem pathItem_decode_ok_iff (fields : List (String × Json)) (p : PathItem) :
    PathItem.decode fields = .ok p ↔
      decodeOptStrField "summary" fields = .ok p.summary ∧
      decodeOptStrField "description" fields = .ok p.description ∧
      decodeOpField "get" fields = .ok p.get ∧
      decodeOpField "put" fields = .ok p.put ∧
      decodeOpField "post" fields = .ok p.post ∧
      decodeOpField "delete" fields = .ok p.delete ∧
      decodeOpField "options" fields = .ok p.options ∧
      decodeOpField "head" fields = .ok p.head ∧
      decodeOpField "patch" fields = .ok p.patch ∧
      decodeOpField "trace" fields = .ok p.trace ∧
      decodeServersField fields = .ok p.servers ∧
      decodeParamsField fields = .ok p.parameters ∧
      p.extensions = pathItemExt fields := by
  constructor
  · intro h
    rw [PathItem.decode] at h
    simp only [bind_ok_iff, map_ok_iff] at h
    obtain ⟨x1, h1, x2, h2, x3, h3, x4, h4, x5, h5, x6, h6, x7, h7, x8, h8, x9, h9,
      x10, h10, x11, h11, x12, h12, hp⟩ := h
    subst hp
    exact ⟨h1, h2, h3, h4, h5, h6, h7, h8, h9, h10, h11, h12, rfl⟩
  · rintro ⟨h1, h2, h3, h4, h5, h6, h7, h8, h9, h10, h11, h12, h13⟩
    rw [PathItem.decode]
    simp only [h1, h2, h3, h4, h5, h6, h7, h8, h9, h10, h11, h12, okBindE, okMapE]
    rw [← h13]

theorem isStrB_iff (v : Json) : isStrB v = true ↔ ∃ s, v = Json.str s := by
  cases v <;> simp [isStrB]

theorem isObjB_iff (v : Json) : isObjB v = true ↔ ∃ fs, v = Json.obj fs := by
  cases v <;> simp [isObjB]

theorem nonEmptyArrAll_iff (p : Json → Bool) (v : Json) :
    nonEmptyArrAll p v = true ↔
      ∃ xs, v = Json.arr xs ∧ xs ≠ [] ∧ ∀ x ∈ xs, p x = true := by
  cases v <;> simp [nonEmptyArrAll, List.isEmpty_iff, List.all_eq_true]

theorem exMapM_rt {dec : α → Except DecodeError β} {enc : β → α} {xs : List α}
    (h : ∀ x ∈ xs, ∃ y, dec x = .ok y ∧ enc y = x) :
    ∃ ys, exMapM dec xs = .ok ys ∧ ys.map enc = xs := by
  induction xs with
  | nil => exact ⟨[], rfl, rfl⟩
  | cons x xs ih =>
    obtain ⟨y, hy, hey⟩ := h x (List.mem_cons_self _ _)
    obtain ⟨ys, hys, heys⟩ := ih fun z hz => h z (List.mem_cons_of_mem _ hz)
    refine ⟨y :: ys, ?_, ?_⟩
    · rw [exMapM, hy, okBindE, hys, okMapE]
    · simp [hey, heys]

theorem isOkE_ok (a : α) : isOkE (Except.ok a : Except DecodeError α) = true := rfl

theorem isOkE_error (e : DecodeError) : isOkE (Except.error e : Except DecodeError α) = false := rfl

theorem isOkE_exMapM (f : α → Except DecodeError β) (xs : List α) :
    isOkE (exMapM f xs) = xs.all fun x => isOkE (f x) := by
  induction xs with
  | nil => rfl
  | cons x xs ih =>
    rw [exMapM]
    cases hf : f x with
    | error e => simp [errBindE, hf, isOkE_error]
    | ok y => simp [okBindE, isOkE_map, ih, hf, isOkE_ok]

theorem decodeOptStrField_rt (k : String) (fields : List (String × Json))
    (h : ∀ v, lookupKey k fields = some v → ∃ s, v = Json.str s) :
    ∃ o, decodeOptStrField k fields = .ok o ∧
      optEntry k (o.map Json.str) = optEntry k (lookupKey k fields) := by
  cases hl : lookupKey k fields with
  | none => exact ⟨none, by simp [decodeOptStrField, hl], rfl⟩
  | some v =>
    obtain ⟨s, rfl⟩ := h v hl
    exact ⟨some s, by simp [decodeOptStrField, hl], rfl⟩

theorem decodeOpField_rt (k : String) (fields : List (String × Json))
    (h : ∀ v, lookupKey k fields = some v → ∃ fs, v = Json.obj fs) :
    ∃ o, decodeOpField k fields = .ok o ∧
      optEntry k (o.map Operation.encode) = optEntry k (lookupKey k fields) := by
  cases hl : lookupKey k fields with
  | none => exact ⟨none, by simp [decodeOpField, hl], rfl⟩
  | some v =>
    obtain ⟨fs, rfl⟩ := h v hl
    refine ⟨some ⟨Json.obj fs⟩, ?_, rfl⟩
    simp [decodeOpField, hl, Operation.decode, okMapE]

theorem decodeServersField_rt (fields : List (String × Json))
    (h : ∀ v, lookupKey "servers" fields = some v →
      ∃ xs, v = Json.arr xs ∧ xs ≠ [] ∧ ∀ x ∈ xs, isObjB x = true) :
    ∃ l, decodeServersField fields = .ok l ∧
      listEntry "servers" (l.map Server.encode) =
        optEntry "servers" (lookupKey "servers" fields) := by
  cases hl : lookupKey "servers" fields with
  | none => exact ⟨[], by simp [decodeServersField, hl], rfl⟩
  | some v =>
    obtain ⟨xs, rfl, hne, hobj⟩ := h v hl
    have hrt : ∀ x ∈ xs, ∃ y, Server.decode x = .ok y ∧ Server.encode y = x := by
      intro x hx
      obtain ⟨fs, rfl⟩ := (isObjB_iff x).mp (hobj x hx)
      exact ⟨⟨Json.obj fs⟩, rfl, rfl⟩
    obtain ⟨ys, hys, heys⟩ := exMapM_rt hrt
    refine ⟨ys, by simp [decodeServersField, hl, hys], ?_⟩
    rw [heys]
    cases xs with
    | nil => exact absurd rfl hne
    | cons a l => rfl

theorem paramElemNF_rt (v : Json) (h : paramElemNF v = true) :
    ∃ r, ReferenceOr.decode Parameter.decode v = .ok r ∧
      ReferenceOr.encode Parameter.encode r = v := by
  match v with
  | .null | .bool _ | .num _ | .str _ | .arr _ => exact Bool.noConfusion h
  | .obj [] => exact ⟨.Inline ⟨.obj []⟩, rfl, rfl⟩
  | .obj [(k', v')] =>
    by_cases hk : k' = "$ref"
    · subst hk
      match v' with
      | .str s => exact ⟨.Reference s, rfl, rfl⟩
      | .null | .bool _ | .num _ | .arr _ | .obj _ => simp [paramElemNF, isStrB] at h
    · refine ⟨.Inline ⟨.obj [(k', v')]⟩, ?_, rfl⟩
      simp [ReferenceOr.decode, hk, Parameter.decode, okMapE]
  | .obj (e1 :: e2 :: rest) =>
    exact ⟨.Inline ⟨.obj (e1 :: e2 :: rest)⟩, rfl, rfl⟩

theorem decodeParamsField_rt (fields : List (String × Json))
    (h : ∀ v, lookupKey "parameters" fields = some v →
      ∃ xs, v = Json.arr xs ∧ xs ≠ [] ∧ ∀ x ∈ xs, paramElemNF x = true) :
    ∃ l, decodeParamsField fields = .ok l ∧
      listEntry "parameters" (l.map (ReferenceOr.encode Parameter.encode)) =
        optEntry "parameters" (lookupKey "parameters" fields) := by
  cases hl : lookupKey "parameters" fields with
  | none => exact ⟨[], by simp [decodeParamsField, hl], rfl⟩
  | some v =>
    obtain ⟨xs, rfl, hne, hnf⟩ := h v hl
    have hrt : ∀ x ∈ xs, ∃ y, ReferenceOr.decode Parameter.decode x = .ok y ∧
        ReferenceOr.encode Parameter.encode y = x :=
      fun x hx => paramElemNF_rt x (hnf x hx)
    obtain ⟨ys, hys, heys⟩ := exMapM_rt hrt
    refine ⟨ys, by simp [decodeParamsField, hl, hys], ?_⟩
    rw [heys]
    cases xs with
    | nil => exact absurd rfl hne
    | cons a l => rfl

theorem pathItemNF_lookup {fields : List (String × Json)} (hnf : pathItemNF fields = true)
    {k : String} {v : Json} (hl : lookupKey k fields = some v) :
    presentFixedValue k v = true := by
  have hmem : ∀ e ∈ fields, presentFixedValue e.1 e.2 = true := by
    simpa [pathItemNF, List.all_eq_true] using hnf
  exact hmem (k, v) (lookupKey_mem hl)

theorem pathItem_decode_encode_nf (fields : List (String × Json))
    (hnf : pathItemNF fields = true) :
    ∃ p, PathItem.decode fields = .ok p ∧ p.encode = pathItemReassembled fields := by
  have hs1 : ∀ v, lookupKey "summary" fields = some v → ∃ s, v = Json.str s := fun v hv =>
    (isStrB_iff v).mp (pathItemNF_lookup hnf hv)
  have hs2 : ∀ v, lookupKey "description" fields = some v → ∃ s, v = Json.str s := fun v hv =>
    (isStrB_iff v).mp (pathItemNF_lookup hnf hv)
  have hg1 : ∀ v, lookupKey "get" fields = some v → ∃ fs, v = Json.obj fs := fun v hv =>
    (isObjB_iff v).mp (pathItemNF_lookup hnf hv)
  have hg2 : ∀ v, lookupKey "put" fields = some v → ∃ fs, v = Json.obj fs := fun v hv =>
    (isObjB_iff v).mp (pathItemNF_lookup hnf hv)
  have hg3 : ∀ v, lookupKey "post" fields = some v → ∃ fs, v = Json.obj fs := fun v hv =>
    (isObjB_iff v).mp (pathItemNF_lookup hnf hv)
  have hg4 : ∀ v, lookupKey "delete" fields = some v → ∃ fs, v = Json.obj fs := fun v hv =>
    (isObjB_iff v).mp (pathItemNF_lookup hnf hv)
  have hg5 : ∀ v, lookupKey "options" fields = some v → ∃ fs, v = Json.obj fs := fun v hv =>
    (isObjB_iff v).mp (pathItemNF_lookup hnf hv)
  have hg6 : ∀ v, lookupKey "head" fields = some v → ∃ fs, v = Json.obj fs := fun v hv =>
    (isObjB_iff v).mp (pathItemNF_lookup hnf hv)
  have hg7 : ∀ v, lookupKey "patch" fields = some v → ∃ fs, v = Json.obj fs := fun v hv =>
    (isObjB_iff v).mp (pathItemNF_lookup hnf hv)
  have hg8 : ∀ v, lookupKey "trace" fields = some v → ∃ fs, v = Json.obj fs := fun v hv =>
    (isObjB_iff v).mp (pathItemNF_lookup hnf hv)
  have hsv : ∀ v, lookupKey "servers" fields = some v →
      ∃ xs, v = Json.arr xs ∧ xs ≠ [] ∧ ∀ x ∈ xs, isObjB x = true := fun v hv =>
    (nonEmptyArrAll_iff isObjB v).mp (pathItemNF_lookup hnf hv)
  have hpr : ∀ v, lookupKey "parameters" fields = some v →
      ∃ xs, v = Json.arr xs ∧ xs ≠ [] ∧ ∀ x ∈ xs, paramElemNF x = true := fun v hv =>
    (nonEmptyArrAll_iff paramElemNF v).mp (pathItemNF_lookup hnf hv)
  obtain ⟨o1, d1, e1⟩ := decodeOptStrField_rt "summary" fields hs1
  obtain ⟨o2, d2, e2⟩ := decodeOptStrField_rt "description" fields hs2
  obtain ⟨a1, d3, e3⟩ := decodeOpField_rt "get" fields hg1
  obtain ⟨a2, d4, e4⟩ := decodeOpField_rt "put" fields hg2
  obtain ⟨a3, d5, e5⟩ := decodeOpField_rt "post" fields hg3
  obtain ⟨a4, d6, e6⟩ := decodeOpField_rt "delete" fields hg4
  obtain ⟨a5, d7, e7⟩ := decodeOpField_rt "options" fields hg5
  obtain ⟨a6, d8, e8⟩ := decodeOpField_rt "head" fields hg6
  obtain ⟨a7, d9, e9⟩ := decodeOpField_rt "patch" fields hg7
  obtain ⟨a8, d10, e10⟩ := decodeOpField_rt "trace" fields hg8
  obtain ⟨sv, d11, e11⟩ := decodeServersField_rt fields hsv
  obtain ⟨pr, d12, e12⟩ := decodeParamsField_rt fields hpr
  refine ⟨⟨o1, o2, a1, a2, a3, a4, a5, a6, a7, a8, sv, pr, pathItemExt fields⟩, ?_, ?_⟩
  · exact (pathItem_decode_ok_iff fields _).mpr
      ⟨d1, d2, d3, d4, d5, d6, d7, d8, d9, d10, d11, d12, rfl⟩
  · rw [PathItem.encode]
    simp only []
    rw [e1, e2, e3, e4, e5, e6, e7, e8, e9, e10, e11, e12, pathItemReassembled]
    simp [blocksOf, pathItemFixedNames, List.append_assoc]

theorem iter_canonical (p : PathItem) :
    p.iter = verbNames.filterMap fun v => (p.verbGet v).map fun op => (v, op) := by
  rcases p with ⟨s, d, g, pu, po, de, op, he, pa, tr, sv, pr, ex⟩
  cases g <;> cases pu <;> cases po <;> cases de <;> cases op <;> cases he <;> cases pa <;>
    cases tr <;> rfl

theorem map_fst_filterMap (l : List String) (g : String → Option Operation) :
    (l.filterMap fun v => (g v).map fun op => (v, op)).map Prod.fst =
      l.filter fun v => (g v).isSome := by
  induction l with
  | nil => rfl
  | cons a l ih =>
    cases hg : g a <;> simp [List.filterMap_cons, List.filter_cons, hg, ih]

theorem deserializePaths_ok_keys {fields : List (String × Json)}
    {ps : List (String × ReferenceOr PathItem)} (h : deserializePaths fields = .ok ps) :
    ps.map Prod.fst = (fields.map Prod.fst).filter startsWithSlash := by
  induction fields generalizing ps with
  | nil =>
    rw [deserializePaths] at h
    cases h
    rfl
  | cons f rest ih =>
    obtain ⟨k, v⟩ := f
    rw [deserializePaths] at h
    cases hs : startsWithSlash k with
    | false =>
      simp only [hs, Bool.false_eq_true, if_false] at h
      simp [List.filter_cons, hs, ih h]
    | true =>
      simp only [hs, if_true] at h
      rw [bind_ok_iff] at h
      obtain ⟨r, hr, h⟩ := h
      rw [map_ok_iff] at h
      obtain ⟨ps', hps, hcons⟩ := h
      subst hcons
      simp [List.filter_cons, hs, ih hps]

theorem deserializePaths_ok_mem {fields : List (String × Json)}
    {ps : List (String × ReferenceOr PathItem)} (h : deserializePaths fields = .ok ps) :
    ∀ e ∈ fields, startsWithSlash e.1 = true →
      ∃ r, ReferenceOr.decode PathItem.decodeJson e.2 = .ok r ∧ (e.1, r) ∈ ps := by
  induction fields generalizing ps with
  | nil =>
    intro e he
    cases he
  | cons f rest ih =>
    obtain ⟨k, v⟩ := f
    rw [deserializePaths] at h
    intro e he hse
    rcases List.mem_cons.mp he with rfl | hm
    · simp only [hse, if_true] at h
      rw [bind_ok_iff] at h
      obtain ⟨r, hr, h⟩ := h
      rw [map_ok_iff] at h
      obtain ⟨ps', hps, hcons⟩ := h
      subst hcons
      exact ⟨r, hr, List.mem_cons_self _ _⟩
    · cases hs : startsWithSlash k with
      | false =>
        simp only [hs, Bool.false_eq_true, if_false] at h
        exact ih h e hm hse
      | true =>
        simp only [hs, if_true] at h
        rw [bind_ok_iff] at h
        obtain ⟨r, hr, h⟩ := h
        rw [map_ok_iff] at h
        obtain ⟨ps', hps, hcons⟩ := h
        subst hcons
        obtain ⟨r', hr', hm'⟩ := ih hps e hm hse
        exact ⟨r', hr', List.mem_cons_of_mem _ hm'⟩

theorem deserializePaths_rt {fields : List (String × Json)}
    (h : ∀ e ∈ fields, startsWithSlash e.1 = true → RefOrPathRT e.2) :
    ∃ ps, deserializePaths fields = .ok ps ∧
      ps.map (fun e => (e.1, ReferenceOr.encode PathItem.encodeJson e.2)) =
        fields.filter fun e => startsWithSlash e.1 := by
  induction fields with
  | nil => exact ⟨[], rfl, rfl⟩
  | cons f rest ih =>
    obtain ⟨k, v⟩ := f
    obtain ⟨ps, hps, hmap⟩ := ih fun e he hs => h e (List.mem_cons_of_mem _ he) hs
    cases hs : startsWithSlash k with
    | false =>
      refine ⟨ps, ?_, ?_⟩
      · rw [deserializePaths]
        simp [hs, hps]
      · simp [List.filter_cons, hs, hmap]
    | true =>
      obtain ⟨r, hr, hre⟩ := h (k, v) (List.mem_cons_self _ _) (by simpa using hs)
      refine ⟨(k, r) :: ps, ?_, ?_⟩
      · rw [deserializePaths]
        simp [hs, hr, okBindE, hps, okMapE]
      · simp [List.filter_cons, hs, hmap, hre]

theorem isOkE_deserializePaths (fields : List (String × Json)) :
    isOkE (deserializePaths fields) =
      fields.all fun e =>
        !startsWithSlash e.1 || isOkE (ReferenceOr.decode PathItem.decodeJson e.2) := by
  induction fields with
  | nil => rfl
  | cons f rest ih =>
    obtain ⟨k, v⟩ := f
    rw [deserializePaths]
    cases hs : startsWithSlash k with
    | false => simp [hs, ih]
    | true =>
      cases hr : ReferenceOr.decode PathItem.decodeJson v with
      | error e => simp [hs, hr, errBindE, isOkE_error]
      | ok r => simp [hs, hr, okBindE, isOkE_map, ih, isOkE_ok]

theorem paths_decode_ok_iff (fields : List (String × Json)) (q : Paths) :
    Paths.decode fields = .ok q ↔
      deserializePaths fields = .ok q.paths ∧
      q.extensions = fields.filter fun e => !startsWithSlash e.1 := by
  rw [Paths.decode]
  constructor
  · intro h
    rw [map_ok_iff] at h
    obtain ⟨ps, hps, hq⟩ := h
    subst hq
    exact ⟨hps, rfl⟩
  · rintro ⟨h1, h2⟩
    rw [h1, okMapE, ← h2]

theorem isOkE_paths_decode (fields : List (String × Json)) :
    isOkE (Paths.decode fields) = isOkE (deserializePaths fields) := by
  rw [Paths.decode, isOkE_map]

theorem isOkE_serverDecode (v : Json) : isOkE (Server.decode v) = isObjB v := by
  cases v <;> rfl

theorem isOkE_decodeOptStrField (k : String) (fields : List (String × Json)) :
    isOkE (decodeOptStrField k fields) = optStrOkB (lookupKey k fields) := by
  cases hl : lookupKey k fields with
  | none => simp [decodeOptStrField, optStrOkB, hl, isOkE_ok]
  | some v =>
    cases v <;> simp [decodeOptStrField, optStrOkB, hl, isOkE_ok, isOkE_error]

theorem isOkE_decodeOpField (k : String) (fields : List (String × Json)) :
    isOkE (decodeOpField k fields) = optOpOkB (lookupKey k fields) := by
  cases hl : lookupKey k fields with
  | none => simp [decodeOpField, optOpOkB, hl, isOkE_ok]
  | some v =>
    cases v <;>
      simp [decodeOpField, optOpOkB, hl, Operation.decode, isOkE_map, isOkE_ok, isOkE_error]

theorem isOkE_decodeServersField (fields : List (String × Json)) :
    isOkE (decodeServersField fields) = serversOkB (lookupKey "servers" fields) := by
  cases hl : lookupKey "servers" fields with
  | none => simp [decodeServersField, serversOkB, hl, isOkE_ok]
  | some v =>
    cases v <;>
      simp [decodeServersField, serversOkB, hl, isOkE_ok, isOkE_error, isOkE_exMapM,
        isOkE_serverDecode]

theorem isOkE_decodeParamsField (fields : List (String × Json)) :
    isOkE (decodeParamsField fields) = paramsOkB (lookupKey "parameters" fields) := by
  cases hl : lookupKey "parameters" fields with
  | none => simp [decodeParamsField, paramsOkB, hl, isOkE_ok]
  | some v =>
    cases v <;>
      simp [decodeParamsField, paramsOkB, hl, isOkE_ok, isOkE_error, isOkE_exMapM]

theorem isOkE_bind_const (x : Except DecodeError α) (f : α → Except DecodeError β)
    (c : Bool) (hf : ∀ a, isOkE (f a) = c) : isOkE (x.bind f) = (isOkE x && c) := by
  cases x with
  | ok a => rw [okBindE, hf a, isOkE_ok, Bool.true_and]
  | error e => rw [errBindE, isOkE_error, isOkE_error, Bool.false_and]

theorem isOkE_pathItem_decode (fields : List (String × Json)) :
    isOkE (PathItem.decode fields) = pathItemFixedOk fields := by
  rw [PathItem.decode]
  rw [isOkE_bind_const _ _ _ fun x1 =>
    isOkE_bind_const _ _ _ fun x2 =>
    isOkE_bind_const _ _ _ fun x3 =>
    isOkE_bind_const _ _ _ fun x4 =>
    isOkE_bind_const _ _ _ fun x5 =>
    isOkE_bind_const _ _ _ fun x6 =>
    isOkE_bind_const _ _ _ fun x7 =>
    isOkE_bind_const _ _ _ fun x8 =>
    isOkE_bind_const _ _ _ fun x9 =>
    isOkE_bind_const _ _ _ fun x10 =>
    isOkE_bind_const _ _ _ fun x11 => isOkE_map (decodeParamsField fields) _]
  rw [pathItemFixedOk]
  simp [isOkE_decodeOptStrField, isOkE_decodeOpField, isOkE_decodeServersField,
    isOkE_decodeParamsField, Bool.and_assoc]

theorem decodeOptStrField_congr (k : String) {l1 l2 : List (String × Json)}
    (h : lookupKey k l1 = lookupKey k l2) :
    decodeOptStrField k l1 = decodeOptStrField k l2 := by
  rw [decodeOptStrField, decodeOptStrField, h]

theorem decodeOpField_congr (k : String) {l1 l2 : List (String × Json)}
    (h : lookupKey k l1 = lookupKey k l2) :
    decodeOpField k l1 = decodeOpField k l2 := by
  rw [decodeOpField, decodeOpField, h]

theorem decodeServersField_congr {l1 l2 : List (String × Json)}
    (h : lookupKey "servers" l1 = lookupKey "servers" l2) :
    decodeServersField l1 = decodeServersField l2 := by
  rw [decodeServersField, decodeServersField, h]

theorem decodeParamsField_congr {l1 l2 : List (String × Json)}
    (h : lookupKey "parameters" l1 = lookupKey "parameters" l2) :
    decodeParamsField l1 = decodeParamsField l2 := by
  rw [decodeParamsField, decodeParamsField, h]

theorem verbGet_applyIterMut (f : String → Operation → Operation) (p : PathItem) (v : String) :
    (p.applyIterMut f).verbGet v = (p.verbGet v).map (f v) := by
  by_cases h1 : v = "get"
  · subst h1; rfl
  by_cases h2 : v = "put"
  · subst h2; rfl
  by_cases h3 : v = "post"
  · subst h3; rfl
  by_cases h4 : v = "delete"
  · subst h4; rfl
  by_cases h5 : v = "options"
  · subst h5; rfl
  by_cases h6 : v = "head"
  · subst h6; rfl
  by_cases h7 : v = "patch"
  · subst h7; rfl
  by_cases h8 : v = "trace"
  · subst h8; rfl
  rw [PathItem.verbGet.eq_def, PathItem.verbGet.eq_def]
  split <;> simp_all

theorem mem_keys_listEntry (k k' : String) (l : List Json) :
    k ∈ (listEntry k' l).map Prod.fst ↔ k = k' ∧ l ≠ [] := by
  cases l <;> simp [listEntry]

theorem pair_mem_optEntry (k k' : String) (x : Json) (o : Option Json) :
    (k, x) ∈ optEntry k' o ↔ k = k' ∧ o = some x := by
  cases o <;> simp [optEntry, and_comm, eq_comm]

theorem pair_mem_listEntry (k k' : String) (x : Json) (l : List Json) :
    (k, x) ∈ listEntry k' l ↔ k = k' ∧ l ≠ [] ∧ x = Json.arr l := by
  cases l <;> simp [listEntry]

theorem pathItemFixedOk_cons_nonfixed (fields : List (String × Json)) (k : String) (v : Json)
    (hk : pathItemFixedNames.contains k = false) :
    pathItemFixedOk ((k, v) :: fields) = pathItemFixedOk fields := by
  have hne : ∀ n : String, n ∈ pathItemFixedNames → k ≠ n := by
    intro n hn he
    subst he
    simp at hk
    exact hk hn
  rw [pathItemFixedOk, pathItemFixedOk,
    lookupKey_cons_ne (hne "summary" (by decide)),
    lookupKey_cons_ne (hne "description" (by decide)),
    lookupKey_cons_ne (hne "get" (by decide)),
    lookupKey_cons_ne (hne "put" (by decide)),
    lookupKey_cons_ne (hne "post" (by decide)),
    lookupKey_cons_ne (hne "delete" (by decide)),
    lookupKey_cons_ne (hne "options" (by decide)),
    lookupKey_cons_ne (hne "head" (by decide)),
    lookupKey_cons_ne (hne "patch" (by decide)),
    lookupKey_cons_ne (hne "trace" (by decide)),
    lookupKey_cons_ne (hne "servers" (by decide)),
    lookupKey_cons_ne (hne "parameters" (by decide))]

theorem map_inline_ne_reference {T : Type} (x : Except DecodeError T) (s : String) :
    x.map ReferenceOr.Inline ≠ .ok (.Reference s) := by
  cases x with
  | ok t =>
    intro h
    exact ReferenceOr.noConfusion (Except.ok.inj h)
  | error e =>
    intro h
    cases h

theorem deserializePaths_cons_nonslash (fields : List (String × Json)) (k : String) (v : Json)
    (hk : startsWithSlash k = false) :
    deserializePaths ((k, v) :: fields) = deserializePaths fields := by
  rw [deserializePaths]
  simp [hk]

/-- C1: `PathItem::iter` yields exactly one `(verb-name, Operation)` pair per
populated verb slot, in the fixed canonical order get, put, post, delete,
options, head, patch, trace, skipping absent verbs; and, because decoding
reads each verb slot by name, the traversal is independent of the key order
of the source object the record was decoded from. -/
theorem C1_iter_canonical_order (p : PathItem) :
    p.iter = (verbNames.filterMap fun v => (p.verbGet v).map fun op => (v, op)) ∧
    p.iter.map Prod.fst = (verbNames.filter fun v => (p.verbGet v).isSome) ∧
    (∀ fields1 fields2 p1 p2, (fields1.map Prod.fst).Nodup → fields1.Perm fields2 →
      PathItem.decode fields1 = .ok p1 → PathItem.decode fields2 = .ok p2 →
      p1.iter = p2.iter) := by
  refine ⟨iter_canonical p, ?_, ?_⟩
  · rw [iter_canonical p, map_fst_filterMap]
  · intro f1 f2 p1 p2 hn hperm h1 h2
    have hl : ∀ k, lookupKey k f1 = lookupKey k f2 := fun k => lookupKey_perm hperm hn k
    obtain ⟨-, -, g1, g2, g3, g4, g5, g6, g7, g8, -, -, -⟩ :=
      (pathItem_decode_ok_iff f1 p1).mp h1
    obtain ⟨-, -, j1, j2, j3, j4, j5, j6, j7, j8, -, -, -⟩ :=
      (pathItem_decode_ok_iff f2 p2).mp h2
    have e1 : p1.get = p2.get :=
      Except.ok.inj (g1.symm.trans ((decodeOpField_congr "get" (hl "get")).trans j1))
    have e2 : p1.put = p2.put :=
      Except.ok.inj (g2.symm.trans ((decodeOpField_congr "put" (hl "put")).trans j2))
    have e3 : p1.post = p2.post :=
      Except.ok.inj (g3.symm.trans ((decodeOpField_congr "post" (hl "post")).trans j3))
    have e4 : p1.delete = p2.delete :=
      Except.ok.inj (g4.symm.trans ((decodeOpField_congr "delete" (hl "delete")).trans j4))
    have e5 : p1.options = p2.options :=
      Except.ok.inj (g5.symm.trans ((decodeOpField_congr "options" (hl "options")).trans j5))
    have e6 : p1.head = p2.head :=
      Except.ok.inj (g6.symm.trans ((decodeOpField_congr "head" (hl "head")).trans j6))
    have e7 : p1.patch = p2.patch :=
      Except.ok.inj (g7.symm.trans ((decodeOpField_congr "patch" (hl "patch")).trans j7))
    have e8 : p1.trace = p2.trace :=
      Except.ok.inj (g8.symm.trans ((decodeOpField_congr "trace" (hl "trace")).trans j8))
    rw [PathItem.iter, PathItem.iter, e1, e2, e3, e4, e5, e6, e7, e8]

/-- Witness for C1: the spec's canonical-ordering example, decoded from key
order post, get, delete and from the transposed order, traverses as get,
post, delete either way. -/
theorem C1_witness :
    c1item.iter.map Prod.fst = ["get", "post", "delete"] ∧ c1item.iter = c1item.iter := by
  constructor
  · rw [(C1_iter_canonical_order c1item).2.1]
    rfl
  · exact (C1_iter_canonical_order c1item).2.2 c1fieldsA c1fieldsB c1item c1item
      (by decide) (List.Perm.swap _ _ _) rfl rfl

/-- C5: the shared-reference, mutable-reference and consuming traversals of
a `PathItem` yield the same sequence of pairs, hence in particular the same
verb-name sequence with identical canonical ordering and filtering. -/
theorem C5_traversals_agree (p : PathItem) :
    p.iterMut = p.iter ∧ p.intoIter = p.iter ∧
    p.iterMut.map Prod.fst = p.iter.map Prod.fst ∧
    p.intoIter.map Prod.fst = p.iter.map Prod.fst :=
  ⟨rfl, rfl, rfl, rfl⟩

/-- C10: writes through the mutable traversal can only change the Operation
payloads of verbs that are already populated: the summary, description,
servers, parameters and extensions fields, the set of present verbs and the
canonical verb-name sequence of the traversal are all unchanged. -/
theorem C10_iterMut_frame (f : String → Operation → Operation) (p : PathItem) :
    (p.applyIterMut f).summary = p.summary ∧
    (p.applyIterMut f).description = p.description ∧
    (p.applyIterMut f).servers = p.servers ∧
    (p.applyIterMut f).parameters = p.parameters ∧
    (p.applyIterMut f).extensions = p.extensions ∧
    (p.applyIterMut f).iter.map Prod.fst = p.iter.map Prod.fst ∧
    ∀ v, ((p.applyIterMut f).verbGet v).isSome = (p.verbGet v).isSome := by
  have hvg : ∀ v, ((p.applyIterMut f).verbGet v).isSome = (p.verbGet v).isSome := by
    intro v
    rw [verbGet_applyIterMut]
    cases p.verbGet v <;> rfl
  refine ⟨rfl, rfl, rfl, rfl, rfl, ?_, hvg⟩
  rw [iter_canonical, iter_canonical, map_fst_filterMap, map_fst_filterMap]
  exact List.filter_congr fun v _ => hvg v

/-- C6: an Operation-Set Record with no populated verb exposes an empty
traversal, and encoding omits every logically absent optional fixed field
entirely (no null marker, no empty-list marker), so a verb-free record
re-encodes to an object with zero verb keys; extension keys, which by the
format's convention never collide with fixed field names, are the only
other keys emitted. -/
theorem C6_absence_semantics (p : PathItem)
    (hext : ∀ e ∈ p.extensions, e.1 ∉ pathItemFixedNames) :
    ((∀ v ∈ verbNames, p.verbGet v = none) →
      p.iter = [] ∧ ∀ v ∈ verbNames, v ∉ p.encode.map Prod.fst) ∧
    (∀ k, k ∈ pathItemFixedNames → p.fieldAbsent k = true →
      k ∉ p.encode.map Prod.fst) := by
  have hkey : ∀ k, k ∈ pathItemFixedNames → p.fieldAbsent k = true →
      k ∉ p.encode.map Prod.fst := by
    intro k hk hab
    have hextk : k ∉ p.extensions.map Prod.fst := by
      intro hm
      obtain ⟨e, he, hfst⟩ := List.mem_map.mp hm
      exact hext e he (by rw [hfst]; exact hk)
    simp only [pathItemFixedNames] at hk
    simp only [List.mem_cons, List.not_mem_nil, or_false] at hk
    rcases hk with rfl | rfl | rfl | rfl | rfl | rfl | rfl | rfl | rfl | rfl | rfl | rfl <;>
      simp only [PathItem.fieldAbsent] at hab <;>
      simp only [Option.isNone_iff_eq_none, List.isEmpty_iff] at hab <;>
      simp [PathItem.encode, pair_mem_optEntry, pair_mem_listEntry, hab, hextk]
  refine ⟨fun hv => ⟨?_, fun v hvm => hkey v (by fin_cases hvm <;> decide) ?_⟩, hkey⟩
  · have h1 := hv "get" (by decide)
    have h2 := hv "put" (by decide)
    have h3 := hv "post" (by decide)
    have h4 := hv "delete" (by decide)
    have h5 := hv "options" (by decide)
    have h6 := hv "head" (by decide)
    have h7 := hv "patch" (by decide)
    have h8 := hv "trace" (by decide)
    rw [iter_canonical]
    simp [verbNames, List.filterMap, h1, h2, h3, h4, h5, h6, h7, h8]
  · have := hv v hvm
    fin_cases hvm <;> simp only [PathItem.fieldAbsent, Option.isNone_iff_eq_none] <;>
      exact this

/-- Witness for C6: the verb-free example record traverses to the empty
sequence and re-encodes without any verb key. -/
theorem C6_witness :
    c6item.iter = [] ∧ "get" ∉ c6item.encode.map Prod.fst ∧
    "servers" ∉ c6item.encode.map Prod.fst := by
  obtain ⟨h1, h2⟩ := C6_absence_semantics c6item (by decide)
  obtain ⟨hit, hverbs⟩ := h1 (by
    intro v hv
    simp only [verbNames, List.mem_cons, List.not_mem_nil, or_false] at hv
    rcases hv with rfl | rfl | rfl | rfl | rfl | rfl | rfl | rfl <;> rfl)
  exact ⟨hit, hverbs "get" (by decide), h2 "servers" (by decide) rfl⟩

/-- C9: encoding a record whose `servers` or `parameters` list is empty
omits that key entirely, and decoding treats an explicit `servers: []` or
`parameters: []` entry exactly like an absent one, so the two are
indistinguishable after a decode-encode round trip. -/
theorem C9_empty_list_absence :
    (∀ p : PathItem, p.servers = [] → "servers" ∉ p.extensions.map Prod.fst →
      "servers" ∉ p.encode.map Prod.fst) ∧
    (∀ p : PathItem, p.parameters = [] → "parameters" ∉ p.extensions.map Prod.fst →
      "parameters" ∉ p.encode.map Prod.fst) ∧
    (∀ fields, lookupKey "servers" fields = none →
      PathItem.decode (("servers", Json.arr []) :: fields) = PathItem.decode fields) ∧
    (∀ fields, lookupKey "parameters" fields = none →
      PathItem.decode (("parameters", Json.arr []) :: fields) = PathItem.decode fields) := by
  refine ⟨?_, ?_, ?_, ?_⟩
  · intro p hsv hextk
    simp [PathItem.encode, pair_mem_optEntry, pair_mem_listEntry, hsv, hextk]
  · intro p hpr hextk
    simp [PathItem.encode, pair_mem_optEntry, pair_mem_listEntry, hpr, hextk]
  · intro fields h
    have hne : ∀ n : String, ("servers" : String) ≠ n →
        lookupKey n (("servers", Json.arr []) :: fields) = lookupKey n fields :=
      fun n hn => lookupKey_cons_ne hn _ _
    have hs : decodeServersField (("servers", Json.arr []) :: fields) =
        decodeServersField fields := by
      rw [decodeServersField, decodeServersField, lookupKey_cons_eq, h]
      rfl
    have hx : pathItemExt (("servers", Json.arr []) :: fields) = pathItemExt fields := by
      rw [pathItemExt, pathItemExt, List.filter_cons]
      have hm : ("servers" : String) ∈ pathItemFixedNames := by decide
      simp [hm]
    rw [PathItem.decode, PathItem.decode]
    simp only [
      decodeOptStrField_congr "summary" (hne "summary" (by decide)),
      decodeOptStrField_congr "description" (hne "description" (by decide)),
      decodeOpField_congr "get" (hne "get" (by decide)),
      decodeOpField_congr "put" (hne "put" (by decide)),
      decodeOpField_congr "post" (hne "post" (by decide)),
      decodeOpField_congr "delete" (hne "delete" (by decide)),
      decodeOpField_congr "options" (hne "options" (by decide)),
      decodeOpField_congr "head" (hne "head" (by decide)),
      decodeOpField_congr "patch" (hne "patch" (by decide)),
      decodeOpField_congr "trace" (hne "trace" (by decide)),
      decodeParamsField_congr (hne "parameters" (by decide)),
      hs, hx]
  · intro fields h
    have hne : ∀ n : String, ("parameters" : String) ≠ n →
        lookupKey n (("parameters", Json.arr []) :: fields) = lookupKey n fields :=
      fun n hn => lookupKey_cons_ne hn _ _
    have hs : decodeParamsField (("parameters", Json.arr []) :: fields) =
        decodeParamsField fields := by
      rw [decodeParamsField, decodeParamsField, lookupKey_cons_eq, h]
      rfl
    have hx : pathItemExt (("parameters", Json.arr []) :: fields) = pathItemExt fields := by
      rw [pathItemExt, pathItemExt, List.filter_cons]
      have hm : ("parameters" : String) ∈ pathItemFixedNames := by decide
      simp [hm]
    rw [PathItem.decode, PathItem.decode]
    simp only [
      decodeOptStrField_congr "summary" (hne "summary" (by decide)),
      decodeOptStrField_congr "description" (hne "description" (by decide)),
      decodeOpField_congr "get" (hne "get" (by decide)),
      decodeOpField_congr "put" (hne "put" (by decide)),
      decodeOpField_congr "post" (hne "post" (by decide)),
      decodeOpField_congr "delete" (hne "delete" (by decide)),
      decodeOpField_congr "options" (hne "options" (by decide)),
      decodeOpField_congr "head" (hne "head" (by decide)),
      decodeOpField_congr "patch" (hne "patch" (by decide)),
      decodeOpField_congr "trace" (hne "trace" (by decide)),
      decodeServersField_congr (hne "servers" (by decide)),
      hs, hx]

/-- Witness for C9: an explicit `servers: []` entry decodes identically to
its absence, and the decoded record re-encodes without a `servers` key. -/
theorem C9_witness :
    PathItem.decode (("servers", Json.arr []) :: c9fields) = PathItem.decode c9fields ∧
    "servers" ∉ c9item.encode.map Prod.fst := by
  exact ⟨C9_empty_list_absence.2.2.1 c9fields rfl,
    C9_empty_list_absence.1 c9item rfl (by decide)⟩

/-- C3: decoding a Path-Collection object routes every source key to
exactly one bucket: a key lands in the paths sub-map, decoded as
Reference-or-Inline `PathItem`, iff it starts with the path separator, and
every other key lands unchanged, in source order, in the extension
sub-map; no key is processed twice and no key is dropped. -/
theorem C3_paths_routing (fields : List (String × Json)) (q : Paths)
    (h : Paths.decode fields = .ok q) :
    q.paths.map Prod.fst = (fields.map Prod.fst).filter startsWithSlash ∧
    q.extensions = (fields.filter fun e => !startsWithSlash e.1) ∧
    (∀ e ∈ fields, startsWithSlash e.1 = true →
      ∃ r, ReferenceOr.decode PathItem.decodeJson e.2 = .ok r ∧ (e.1, r) ∈ q.paths) ∧
    (∀ k, ¬(k ∈ q.paths.map Prod.fst ∧ k ∈ q.extensions.map Prod.fst)) := by
  obtain ⟨hps, hext⟩ := (paths_decode_ok_iff fields q).mp h
  refine ⟨deserializePaths_ok_keys hps, hext, deserializePaths_ok_mem hps, ?_⟩
  rintro k ⟨h1, h2⟩
  rw [deserializePaths_ok_keys hps] at h1
  have hs1 : startsWithSlash k = true := (List.mem_filter.mp h1).2
  rw [hext] at h2
  obtain ⟨e, he, rfl⟩ := List.mem_map.mp h2
  have hs2 := (List.mem_filter.mp he).2
  simp [hs1] at hs2

/-- Witness for C3: on the example object the path bucket holds exactly the
slash key and the extension bucket exactly the other key, unchanged. -/
theorem C3_witness :
    c3paths.paths.map Prod.fst = (c3fields.map Prod.fst).filter startsWithSlash ∧
    c3paths.extensions = (c3fields.filter fun e => !startsWithSlash e.1) := by
  obtain ⟨h1, h2, h3, h4⟩ := C3_paths_routing c3fields c3paths rfl
  exact ⟨h1, h2⟩

/-- C8: both the borrowing and the consuming iteration over a decoded
Path-Collection Record yield its `(path-template, Reference-or-Inline
PathItem)` pairs in source insertion order, and lookup in the paths map is
by exact path-template string. -/
theorem C8_paths_iteration (fields : List (String × Json)) (q : Paths)
    (h : Paths.decode fields = .ok q) :
    q.iter = q.intoIter ∧
    q.iter.map Prod.fst = (fields.map Prod.fst).filter startsWithSlash ∧
    ((fields.map Prod.fst).Nodup →
      ∀ k r, q.get k = some r ↔ (k, r) ∈ q.iter) := by
  obtain ⟨hps, hext⟩ := (paths_decode_ok_iff fields q).mp h
  refine ⟨rfl, deserializePaths_ok_keys hps, ?_⟩
  intro hn k r
  have hn2 : (q.paths.map Prod.fst).Nodup := by
    rw [deserializePaths_ok_keys hps]
    exact hn.filter _
  exact ⟨fun hl => lookupKey_mem hl, fun hm => mem_lookupKey hn2 hm⟩

/-- Witness for C8: on the example record the two iterations agree and the
exact-string lookup finds the decoded reference. -/
theorem C8_witness :
    c3paths.iter = c3paths.intoIter ∧
    c3paths.get "/a" = some (ReferenceOr.Reference "r") := by
  obtain ⟨h1, h2, h3⟩ := C8_paths_iteration c3fields c3paths rfl
  refine ⟨h1, ?_⟩
  exact (h3 (by decide) "/a" (ReferenceOr.Reference "r")).mpr (List.mem_cons_self _ _)

/-- C4: a Reference-or-Inline node decodes to a `Reference` iff the value
is an object whose key set is exactly the singleton reserved locator field
(`{"$ref": "X"}` decodes to `Reference "X"`); any other object shape,
including one carrying the locator field alongside other fields, is handed
to the payload type's own decoder as `Inline`. -/
theorem C4_reference_discrimination (T : Type) (decT : Json → Except DecodeError T)
    (j : Json) (s : String) :
    (ReferenceOr.decode decT j = .ok (.Reference s) ↔ j = .obj [("$ref", Json.str s)]) ∧
    (∀ fields, (∀ v, fields ≠ [("$ref", v)]) →
      ReferenceOr.decode decT (.obj fields) = (decT (.obj fields)).map .Inline) := by
  constructor
  · constructor
    · intro h
      match j with
      | .null => exact Except.noConfusion h
      | .bool b => exact Except.noConfusion h
      | .num n => exact Except.noConfusion h
      | .str t => exact Except.noConfusion h
      | .arr xs => exact Except.noConfusion h
      | .obj [] => exact absurd h (map_inline_ne_reference _ _)
      | .obj (e1 :: e2 :: rest) => exact absurd h (map_inline_ne_reference _ _)
      | .obj [(k, v)] =>
        by_cases hk : k = "$ref"
        · subst hk
          match v with
          | .str t =>
            have h2 : (Except.ok (ReferenceOr.Reference t) :
                Except DecodeError (ReferenceOr T)) = .ok (.Reference s) := h
            have h3 : t = s := ReferenceOr.Reference.inj (Except.ok.inj h2)
            rw [h3]
          | .null => exact Except.noConfusion h
          | .bool b => exact Except.noConfusion h
          | .num n => exact Except.noConfusion h
          | .arr xs => exact Except.noConfusion h
          | .obj fs => exact Except.noConfusion h
        · simp only [ReferenceOr.decode, if_neg hk] at h
          exact absurd h (map_inline_ne_reference _ _)
    · intro h
      subst h
      rfl
  · intro fields hne
    match fields with
    | [] => rfl
    | [(k, v)] =>
      by_cases hk : k = "$ref"
      · subst hk
        exact absurd rfl (hne v)
      · simp only [ReferenceOr.decode, if_neg hk]
    | e1 :: e2 :: rest => rfl

/-- Witness for C4: the spec's two discrimination examples, decoded with
the opaque `Parameter` payload decoder. -/
theorem C4_witness :
    ReferenceOr.decode Parameter.decode (Json.obj [("$ref", Json.str "X")]) =
      .ok (.Reference "X") ∧
    ReferenceOr.decode Parameter.decode
        (Json.obj [("$ref", Json.str "X"), ("description", Json.str "Y")]) =
      .ok (.Inline ⟨Json.obj [("$ref", Json.str "X"), ("description", Json.str "Y")]⟩) := by
  constructor
  · exact (C4_reference_discrimination Parameter Parameter.decode
      (Json.obj [("$ref", Json.str "X")]) "X").1.mpr rfl
  · have h := (C4_reference_discrimination Parameter Parameter.decode
      (Json.obj [("$ref", Json.str "X"), ("description", Json.str "Y")]) "X").2
      [("$ref", Json.str "X"), ("description", Json.str "Y")] (by simp)
    rw [h]
    rfl

/-- Counterexample to C7 as stated: decoding the Path-Collection object
with the single entry `"/a": 3` fails with `PayloadMismatch`, although the
object contains no fixed field at all (its only key is predicate-matched,
not unrecognized) — so decoding can fail even when no fixed field's
payload is at fault. -/
theorem C7_counterexample :
    Paths.decode [("/a", Json.num 3)] = .error .PayloadMismatch ∧
    (∀ e ∈ [(("/a" : String), Json.num 3)], e.1 ∉ pathItemFixedNames) :=
  ⟨rfl, by decide⟩

/-- C7 (amended): decoding an Operation-Set Record fails exactly when some
fixed field's payload cannot be decoded against its declared type, and
decoding a Path-Collection Record fails exactly when some predicate-matched
dynamic entry's payload cannot be decoded as Reference-or-Inline
`PathItem`; keys routed to the extension bucket never cause failure —
prepending any unrecognized key leaves decodability unchanged. -/
theorem C7_failure_characterization :
    (∀ fields, isOkE (PathItem.decode fields) = pathItemFixedOk fields) ∧
    (∀ fields k v, pathItemFixedNames.contains k = false →
      isOkE (PathItem.decode ((k, v) :: fields)) = isOkE (PathItem.decode fields)) ∧
    (∀ fields, isOkE (Paths.decode fields) =
      (fields.all fun e =>
        !startsWithSlash e.1 || isOkE (ReferenceOr.decode PathItem.decodeJson e.2))) ∧
    (∀ fields k v, startsWithSlash k = false →
      isOkE (Paths.decode ((k, v) :: fields)) = isOkE (Paths.decode fields)) := by
  refine ⟨isOkE_pathItem_decode, ?_, ?_, ?_⟩
  · intro fields k v hk
    rw [isOkE_pathItem_decode, isOkE_pathItem_decode, pathItemFixedOk_cons_nonfixed fields k v hk]
  · intro fields
    rw [isOkE_paths_decode, isOkE_deserializePaths]
  · intro fields k v hk
    rw [isOkE_paths_decode, isOkE_paths_decode, deserializePaths_cons_nonslash fields k v hk]

/-- Witness for C7: a malformed `summary` payload is fatal while an
unrecognized extension key is not, on concrete objects. -/
theorem C7_witness :
    isOkE (PathItem.decode [("summary", Json.num 7)]) =
      pathItemFixedOk [("summary", Json.num 7)] ∧
    pathItemFixedOk [("summary", Json.num 7)] = false ∧
    isOkE (PathItem.decode ((("x-a" : String), Json.num 1) :: [("summary", Json.str "s")])) =
      isOkE (PathItem.decode [("summary", Json.str "s")]) ∧
    isOkE (Paths.decode ((("x-b" : String), Json.num 2) :: [])) = isOkE (Paths.decode []) := by
  refine ⟨C7_failure_characterization.1 [("summary", Json.num 7)], rfl, ?_, ?_⟩
  · exact C7_failure_characterization.2.1 [("summary", Json.str "s")] "x-a" (Json.num 1)
      (by decide)
  · exact C7_failure_characterization.2.2.2 [] "x-b" (Json.num 2) (by decide)

/-- Counterexample to C2 as stated: the object with keys `description`,
`summary`, `servers` (the last holding `[]`) decodes successfully, but
re-encoding drops the `servers` key entirely (so the key-to-value mapping
is not preserved) and emits `summary` before `description` (so order
within the fixed bucket follows the type's declaration order, not the
source order). -/
theorem C2_counterexample :
    (PathItem.decode [("description", Json.str "d"), ("summary", Json.str "s"),
        ("servers", Json.arr [])]).map PathItem.encode =
      .ok [("summary", Json.str "s"), ("description", Json.str "d")] ∧
    lookupKey "servers" [("description", Json.str "d"), ("summary", Json.str "s"),
        ("servers", Json.arr [])] = some (Json.arr []) ∧
    lookupKey "servers" [("summary", Json.str "s"), ("description", Json.str "d")] = none :=
  ⟨rfl, rfl, rfl⟩

/-- C2 (amended): for any object whose keys are a disjoint union of
fixed-field names, predicate-matching keys and other keys, provided every
present fixed-field value is a present-form value (not an absence encoding
such as null or an empty list) and every predicate-matched value
round-trips through its Reference-or-Inline decoder, decode-then-encode
yields an object with the same key-to-value mapping as the source; the
dynamic and extension buckets preserve source order, while the fixed
fields are emitted in the type's canonical declaration order. -/
theorem C2_round_trip :
    (∀ fields p, pathItemNF fields = true → PathItem.decode fields = .ok p →
      p.encode = pathItemReassembled fields ∧
      ∀ k, lookupKey k p.encode = lookupKey k fields) ∧
    (∀ fields q, (∀ e ∈ fields, startsWithSlash e.1 = true → RefOrPathRT e.2) →
      Paths.decode fields = .ok q →
      q.encode = ((fields.filter fun e => startsWithSlash e.1) ++
        fields.filter fun e => !startsWithSlash e.1) ∧
      ∀ k, lookupKey k q.encode = lookupKey k fields) := by
  constructor
  · intro fields p hnf hdec
    obtain ⟨p0, hdec0, henc0⟩ := pathItem_decode_encode_nf fields hnf
    rw [hdec0] at hdec
    obtain rfl : p0 = p := Except.ok.inj hdec
    refine ⟨henc0, fun k => ?_⟩
    rw [henc0]
    exact lookupKey_reassembled fields k
  · intro fields q hrt hdec
    obtain ⟨hps, hext⟩ := (paths_decode_ok_iff fields q).mp hdec
    obtain ⟨ps0, hps0, hmap⟩ := deserializePaths_rt hrt
    have hqp : q.paths = ps0 := Except.ok.inj (hps.symm.trans hps0)
    have henc : q.encode = ((fields.filter fun e => startsWithSlash e.1) ++
        fields.filter fun e => !startsWithSlash e.1) := by
      rw [Paths.encode, hqp, hmap, hext]
    refine ⟨henc, fun k => ?_⟩
    rw [henc]
    exact lookupKey_partition startsWithSlash fields k

/-- Witness for C2 (amended) at the two example objects. -/
theorem C2_witness :
    c2itemA.encode = pathItemReassembled c2fieldsA ∧
    lookupKey "x-a" c2itemA.encode = lookupKey "x-a" c2fieldsA ∧
    c2pathsB.encode = ((c2fieldsB.filter fun e => startsWithSlash e.1) ++
      c2fieldsB.filter fun e => !startsWithSlash e.1) ∧
    lookupKey "/p" c2pathsB.encode = lookupKey "/p" c2fieldsB := by
  obtain ⟨hA1, hA2⟩ := C2_round_trip.1 c2fieldsA c2itemA (by decide) rfl
  obtain ⟨hB1, hB2⟩ := C2_round_trip.2 c2fieldsB c2pathsB (by
    intro e he hs
    simp only [c2fieldsB, List.mem_cons, List.not_mem_nil, or_false] at he
    rcases he with rfl | rfl
    · exact ⟨.Reference "r", rfl, rfl⟩
    · exact absurd hs (by decide)) rfl
  exact ⟨hA1, hA2 "x-a", hB1, hB2 "/p"⟩
